import Mathlib

/-!
Verification development for the Traffic Camera System relay hub
(`CameraSystem/server`): a shallow embedding in Lean 4 of the hub's
protocol decoders (`protocol.py`), the per-camera state store
(`camera_manager.py`) and the connection/broadcast orchestration
(`server.py`), together with theorems settling the specification's
claims about them.

Modelling conventions:
- Python `bytes` are `List Nat` with every element < 256 where it matters.
- Python `dict` is an insertion-ordered association list (`AssocMap`):
  assigning to an existing key replaces the value in place, assigning to
  a fresh key appends at the end, `del` removes the entry; iteration
  follows the list order, exactly as CPython dicts behave.
- Wall-clock instants (`datetime.now()` / `time.time()`) are rationals
  supplied explicitly to each operation; `(a - b).total_seconds()` is
  plain subtraction.
- `websockets` connections are identified by naturals; whether a socket
  is closed is an external predicate on identifiers, and the outcome of
  an individual `send` is an external oracle, since both are decided by
  the network, not the hub.
-/

namespace TrafficCam

/-! ## Python dict as an insertion-ordered association list -/

abbrev AssocMap (β : Type) : Type := List (Nat × β)

namespace AssocMap

variable {β : Type}

/-- `d[k]` lookup returning `none` when the key is absent. -/
def find? : AssocMap β → Nat → Option β
  | [], _ => none
  | (k', v) :: rest, k => if k' = k then some v else find? rest k

/-- In-place replacement of the value at key `k` (keeps dict order). -/
def replace (m : AssocMap β) (k : Nat) (v : β) : AssocMap β :=
  m.map (fun p => if p.1 = k then (k, v) else p)

/-- `d[k] = v`: replace in place when the key exists, append otherwise. -/
def insert (m : AssocMap β) (k : Nat) (v : β) : AssocMap β :=
  if (find? m k).isSome then replace m k v
  else m ++ [(k, v)]

/-- `del d[k]` (tolerating an absent key, as the callers guard with `in`). -/
def erase (m : AssocMap β) (k : Nat) : AssocMap β :=
  m.filter (fun p => p.1 ≠ k)

/-- `list(d.keys())`, in iteration order. -/
def keys (m : AssocMap β) : List Nat :=
  m.map Prod.fst

@[simp] theorem find?_nil (k : Nat) : find? ([] : AssocMap β) k = none := rfl

@[simp] theorem find?_cons (k' : Nat) (v : β) (rest : AssocMap β) (k : Nat) :
    find? ((k', v) :: rest) k = if k' = k then some v else find? rest k := rfl

@[simp] theorem keys_nil : keys ([] : AssocMap β) = [] := rfl

@[simp] theorem keys_cons (p : Nat × β) (rest : AssocMap β) :
    keys (p :: rest) = p.1 :: keys rest := rfl

theorem keys_append (m₁ m₂ : AssocMap β) : keys (m₁ ++ m₂) = keys m₁ ++ keys m₂ := by
  simp [keys]

theorem find?_isSome_iff_mem_keys (m : AssocMap β) (k : Nat) :
    (find? m k).isSome ↔ k ∈ keys m := by
  induction m with
  | nil => simp
  | cons p rest ih =>
    obtain ⟨k', v⟩ := p
    by_cases h : k' = k
    · subst h
      simp
    · rw [find?_cons, if_neg h, ih]
      simp only [keys_cons, List.mem_cons]
      constructor
      · exact Or.inr
      · rintro (he | hm)
        · exact absurd he.symm h
        · exact hm

theorem find?_eq_none_iff_not_mem_keys (m : AssocMap β) (k : Nat) :
    find? m k = none ↔ k ∉ keys m := by
  rw [← find?_isSome_iff_mem_keys]
  cases find? m k <;> simp

@[simp] theorem replace_nil (k : Nat) (v : β) : replace ([] : AssocMap β) k v = [] := rfl

theorem replace_cons (k' : Nat) (v' : β) (rest : AssocMap β) (k : Nat) (v : β) :
    replace ((k', v') :: rest) k v =
      (if k' = k then (k, v) else (k', v')) :: replace rest k v := rfl

@[simp] theorem keys_replace (m : AssocMap β) (k : Nat) (v : β) :
    keys (replace m k v) = keys m := by
  induction m with
  | nil => rfl
  | cons p rest ih =>
    obtain ⟨k', v'⟩ := p
    rw [replace_cons]
    by_cases hk : k' = k
    · subst hk
      simpa [keys] using ih
    · simpa [keys, hk] using ih

theorem find?_replace_self (m : AssocMap β) (k : Nat) (v : β) (h : k ∈ keys m) :
    find? (replace m k v) k = some v := by
  induction m with
  | nil => simp at h
  | cons p rest ih =>
    obtain ⟨k', v'⟩ := p
    by_cases hk : k' = k
    · rw [replace_cons, if_pos hk, find?_cons, if_pos rfl]
    · rw [replace_cons, if_neg hk, find?_cons, if_neg hk]
      have hmem : k ∈ keys rest := by
        rcases List.mem_cons.mp (by simpa using h) with h1 | h2
        · exact absurd h1.symm hk
        · exact h2
      exact ih hmem

theorem find?_replace_ne (m : AssocMap β) (k j : Nat) (v : β) (hjk : j ≠ k) :
    find? (replace m k v) j = find? m j := by
  induction m with
  | nil => rfl
  | cons p rest ih =>
    obtain ⟨k', v'⟩ := p
    by_cases hk : k' = k
    · rw [replace_cons, if_pos hk, find?_cons, if_neg (Ne.symm hjk), find?_cons,
        if_neg (fun h => absurd (hk.symm.trans h) (Ne.symm hjk))]
      exact ih
    · rw [replace_cons, if_neg hk, find?_cons, find?_cons]
      by_cases hj : k' = j
      · rw [if_pos hj, if_pos hj]
      · rw [if_neg hj, if_neg hj]
        exact ih

theorem keys_insert (m : AssocMap β) (k : Nat) (v : β) :
    keys (insert m k v) = if k ∈ keys m then keys m else keys m ++ [k] := by
  by_cases h : k ∈ keys m
  · have hs : (find? m k).isSome := (find?_isSome_iff_mem_keys m k).mpr h
    rw [if_pos h]
    unfold insert
    rw [if_pos hs, keys_replace]
  · have hs : ¬ (find? m k).isSome := fun hs => h ((find?_isSome_iff_mem_keys m k).mp hs)
    rw [if_neg h]
    unfold insert
    rw [if_neg hs, keys_append]
    rfl

theorem find?_append_left (m₁ m₂ : AssocMap β) (k : Nat) (h : k ∉ keys m₁) :
    find? (m₁ ++ m₂) k = find? m₂ k := by
  induction m₁ with
  | nil => rfl
  | cons p rest ih =>
    obtain ⟨k', v'⟩ := p
    have hk : ¬ k' = k := by
      intro he
      exact h (by simp [he])
    have hmem : k ∉ keys rest := fun hm => h (by simp [hm])
    rw [List.cons_append, find?_cons, if_neg hk]
    exact ih hmem

theorem find?_insert_self (m : AssocMap β) (k : Nat) (v : β) :
    find? (insert m k v) k = some v := by
  unfold insert
  by_cases h : (find? m k).isSome
  · rw [if_pos h]
    exact find?_replace_self m k v ((find?_isSome_iff_mem_keys m k).mp h)
  · rw [if_neg h]
    have hmem : k ∉ keys m := fun hm => h ((find?_isSome_iff_mem_keys m k).mpr hm)
    rw [find?_append_left m [(k, v)] k hmem]
    simp [find?]

theorem find?_insert_ne (m : AssocMap β) (k j : Nat) (v : β) (hjk : j ≠ k) :
    find? (insert m k v) j = find? m j := by
  unfold insert
  by_cases h : (find? m k).isSome
  · rw [if_pos h]
    exact find?_replace_ne m k j v hjk
  · rw [if_neg h]
    induction m with
    | nil => simp [find?, Ne.symm hjk]
    | cons p rest ih =>
      obtain ⟨k', v'⟩ := p
      by_cases hk : k' = k
      · simp [find?, hk] at h
      · simp only [find?_cons, hk, if_false] at h
        by_cases hj : k' = j <;> simp [find?, hj, ih h]

theorem erase_cons (p : Nat × β) (rest : AssocMap β) (k : Nat) :
    erase (p :: rest) k = if p.1 = k then erase rest k else p :: erase rest k := by
  by_cases hk : p.1 = k <;> simp [erase, hk]

theorem keys_erase (m : AssocMap β) (k : Nat) :
    keys (erase m k) = (keys m).filter (fun j => j ≠ k) := by
  induction m with
  | nil => rfl
  | cons p rest ih =>
    obtain ⟨k', v'⟩ := p
    by_cases hk : k' = k
    · rw [erase_cons, if_pos hk, keys_cons, List.filter_cons_of_neg (by simpa using hk)]
      exact ih
    · rw [erase_cons, if_neg hk, keys_cons, keys_cons,
        List.filter_cons_of_pos (by simpa using hk)]
      rw [ih]

theorem find?_erase_self (m : AssocMap β) (k : Nat) :
    find? (erase m k) k = none := by
  induction m with
  | nil => rfl
  | cons p rest ih =>
    obtain ⟨k', v'⟩ := p
    by_cases hk : k' = k
    · rw [erase_cons, if_pos hk]
      exact ih
    · rw [erase_cons, if_neg hk, find?_cons, if_neg hk]
      exact ih

theorem find?_erase_ne (m : AssocMap β) (k j : Nat) (hjk : j ≠ k) :
    find? (erase m k) j = find? m j := by
  induction m with
  | nil => rfl
  | cons p rest ih =>
    obtain ⟨k', v'⟩ := p
    by_cases hk : k' = k
    · rw [erase_cons, if_pos hk, find?_cons,
        if_neg (fun h => absurd (h.symm.trans hk) hjk)]
      exact ih
    · rw [erase_cons, if_neg hk, find?_cons, find?_cons]
      by_cases hj : k' = j
      · rw [if_pos hj, if_pos hj]
      · rw [if_neg hj, if_neg hj]
        exact ih

end AssocMap

/-! ## config.py -/

/-- `MAX_CAMERAS = 4` from `config.py`. -/
def MAX_CAMERAS : Nat := 4

/-! ## protocol.py — binary protocol -/

/-- `BINARY_HEADER_SIZE = 1 + 8 + 4`. -/
def BINARY_HEADER_SIZE : Nat := 1 + 8 + 4

/-- Value of a little-endian unsigned byte sequence
(`struct.unpack` with format `<I` on 4 bytes, etc.). -/
def leUInt (bytes : List Nat) : Nat :=
  bytes.foldr (fun b acc => acc * 256 + b) 0

/-- `struct.unpack('<q', ·)`: little-endian signed 64-bit
(two's complement on the 8-byte unsigned value). -/
def leInt64 (bytes : List Nat) : Int :=
  let u := leUInt bytes
  if u ≥ 2 ^ 63 then (u : Int) - 2 ^ 64 else (u : Int)

/-- `n` encoded as `k` little-endian bytes (`struct.pack` after reduction
mod `2^(8k)`). -/
def natToLEBytes : Nat → Nat → List Nat
  | 0, _ => []
  | k + 1, n => n % 256 :: natToLEBytes k (n / 256)

/-- Result dict of `parse_binary_stream_packet`. -/
structure BinaryPacket where
  camera_id : Nat
  timestamp_ticks : Int
  jpeg_bytes : List Nat
  jpeg_length : Nat
  deriving DecidableEq, Repr

/-- `parse_binary_stream_packet(data)` from `protocol.py`:
header check, then declared-length check, then exact payload slice
(`data[13:13 + jpeg_length]`); `None` on either failure.  The
`struct.error`/`IndexError` handler is unreachable once the 13-byte
header check passed, so it has no counterpart here. -/
def parse_binary_stream_packet (data : List Nat) : Option BinaryPacket :=
  if data.length < BINARY_HEADER_SIZE then none
  else
    let camera_id := data.headD 0
    let timestamp_ticks := leInt64 ((data.drop 1).take 8)
    let jpeg_length := leUInt ((data.drop 9).take 4)
    if data.length < BINARY_HEADER_SIZE + jpeg_length then none
    else some ⟨camera_id, timestamp_ticks, (data.drop 13).take jpeg_length, jpeg_length⟩

/-- `create_binary_stream_packet(camera_id, jpeg_bytes, timestamp_ticks)`:
`struct.pack('<BqI', ...)` followed by the payload.  `struct.pack` raises
on arguments outside the ranges of `B`/`q`/`I`, modelled by `none`. -/
def create_binary_stream_packet (camera_id : Nat) (jpeg_bytes : List Nat)
    (timestamp_ticks : Int) : Option (List Nat) :=
  if camera_id < 256 ∧ -(2 ^ 63) ≤ timestamp_ticks ∧ timestamp_ticks < 2 ^ 63 ∧
      jpeg_bytes.length < 2 ^ 32 then
    some ([camera_id] ++ natToLEBytes 8 (timestamp_ticks % 2 ^ 64).toNat ++
      natToLEBytes 4 jpeg_bytes.length ++ jpeg_bytes)
  else none

/-! ## protocol.py — text protocol -/

/-- Split a character list at the first occurrence of `c`, if any. -/
def splitFirst (c : Char) : List Char → Option (List Char × List Char)
  | [] => none
  | x :: rest =>
    if x = c then some ([], rest)
    else (splitFirst c rest).map (fun p => (x :: p.1, p.2))

/-- Python `s.split(':', 2)`: at most two splits, remainder kept whole. -/
def pySplit2Colon (s : String) : List String :=
  match splitFirst ':' s.toList with
  | none => [s]
  | some (a, rest) =>
    match splitFirst ':' rest with
    | none => [⟨a⟩, ⟨rest⟩]
    | some (b, rest2) => [⟨a⟩, ⟨b⟩, ⟨rest2⟩]

/-- Digits-only numeral value; `none` when empty or non-digit. -/
def digitsVal (l : List Char) : Option Nat :=
  if l ≠ [] ∧ l.all (·.isDigit) then
    some (l.foldl (fun acc c => acc * 10 + (c.toNat - 48)) 0)
  else none

/-- Python `int(s)` on a decimal string: surrounding spaces stripped,
optional sign, then digits; `none` models the `ValueError` the caller
catches.  (Exotic accepted forms — underscore separators, non-ASCII
digits — are outside the modelled input space.) -/
def pyInt? (s : String) : Option Int :=
  let chars := ((s.toList.dropWhile (· = ' ')).reverse.dropWhile (· = ' ')).reverse
  match chars with
  | '-' :: ds => (digitsVal ds).map (fun n => -(n : Int))
  | '+' :: ds => (digitsVal ds).map (fun n => (n : Int))
  | ds => (digitsVal ds).map (fun n => (n : Int))

/-- `parse_text_stream_message(message)` from `protocol.py`:
`message.split(':', 2)`, require ≥ 3 parts, `int(parts[1])` (failure
caught), return `{'camera_id': ..., 'base64_data': parts[2]}`. -/
def parse_text_stream_message (message : String) : Option (Int × String) :=
  let parts := pySplit2Colon message
  if 3 ≤ parts.length then
    (pyInt? (parts.getD 1 "")).map (fun n => (n, parts.getD 2 ""))
  else none

/-! ## protocol.py — outbound JSON messages and base64 -/

/-- The base64 alphabet of RFC 4648 used by `base64.b64encode`. -/
def b64Alphabet : List Char :=
  "ABCDEFGHIJKLMNOPQRSTUVWXYZabcdefghijklmnopqrstuvwxyz0123456789+/".toList

def b64Char (n : Nat) : Char := b64Alphabet.getD n 'A'

/-- Standard base64: 3 input bytes to 4 output characters, `=`-padded. -/
def b64EncodeChunks : List Nat → List Char
  | [] => []
  | [a] => [b64Char (a / 4), b64Char (a % 4 * 16), '=', '=']
  | [a, b] => [b64Char (a / 4), b64Char (a % 4 * 16 + b / 16), b64Char (b % 16 * 4), '=']
  | a :: b :: c :: rest =>
    b64Char (a / 4) :: b64Char (a % 4 * 16 + b / 16) ::
      b64Char (b % 16 * 4 + c / 64) :: b64Char (c % 64) :: b64EncodeChunks rest

/-- `jpeg_to_base64(jpeg_bytes)`: `base64.b64encode(...).decode('ascii')`. -/
def jpeg_to_base64 (jpeg_bytes : List Nat) : String :=
  ⟨b64EncodeChunks jpeg_bytes⟩

/-- `create_stream_message(camera_id, base64_data)`: the JSON dict
`{type: "camera_stream", cameraId, data, timestamp}`, with the
wall-clock timestamp made explicit. -/
structure StreamMessage where
  cameraId : Nat
  data : String
  timestamp : Rat
  deriving DecidableEq, Repr

def create_stream_message (camera_id : Nat) (base64_data : String) (now : Rat) :
    StreamMessage :=
  ⟨camera_id, base64_data, now⟩

/-- A message the hub writes to a consumer connection: the
connection-established JSON of `create_connection_message` or a stream
update of `create_stream_message`. -/
inductive OutMessage where
  | connectionMsg (timestamp : Rat) : OutMessage
  | streamMsg (msg : StreamMessage) : OutMessage
  deriving DecidableEq, Repr

/-! ## camera_manager.py -/

/-- `round(x, 2)`.  (CPython rounds the underlying binary float to
even on ties; the tie-breaking mode is immaterial to every claim, so
Mathlib's `round` is used on `100 * x`.) -/
def pyRound2 (x : Rat) : Rat :=
  (round (x * 100) : Int) / 100

/-- One entry of `CameraManager.cameras`:
`{"data": ..., "timestamp": now.isoformat(), "last_update": now}`
(the ISO string is represented by the instant it renders). -/
structure FrameRecord where
  data : String
  timestamp : Rat
  last_update : Rat
  deriving DecidableEq, Repr

/-- One entry of `CameraManager.stats`.  `avg_fps` is a key that is
absent until first computed, hence an `Option`. -/
structure CameraStats where
  frames_received : Nat
  first_seen : Rat
  last_update : Rat
  avg_fps : Option Rat
  deriving DecidableEq, Repr

/-- `deque(maxlen=30)` append: drop from the left once past capacity. -/
def dequeAppend30 (d : List Rat) (t : Rat) : List Rat :=
  let d' := d ++ [t]
  if 30 < d'.length then d'.drop (d'.length - 30) else d'

structure CameraManager where
  max_cameras : Nat
  cameras : AssocMap FrameRecord
  frame_timestamps : AssocMap (List Rat)
  stats : AssocMap CameraStats
  inactive_timeout : Rat
  deriving DecidableEq, Repr

namespace CameraManager

/-- `CameraManager.__init__`. -/
def init (max_cameras : Nat) : CameraManager :=
  ⟨max_cameras, [], [], [], 10⟩

/-- `update_camera(camera_id, base64_data)` at instant `now`
(`datetime.now()` and `time.time()` taken at the same instant). -/
def update_camera (m : CameraManager) (camera_id : Nat) (base64_data : String)
    (now : Rat) : CameraManager :=
  let cameras := m.cameras.insert camera_id ⟨base64_data, now, now⟩
  -- create the deque on first sight, then append now()
  let ft0 := (m.frame_timestamps.find? camera_id).getD []
  let ft := dequeAppend30 ft0 now
  let frame_timestamps := m.frame_timestamps.insert camera_id ft
  -- create the stats dict on first sight (without an "avg_fps" key)
  let stats0 := (m.stats.find? camera_id).getD ⟨0, now, now, none⟩
  let stats1 := { stats0 with frames_received := stats0.frames_received + 1,
                              last_update := now }
  -- avg_fps = (len(timestamps) - 1) / time_span when ≥ 2 samples and span > 0
  let stats2 :=
    if 2 ≤ ft.length then
      let time_span := ft.getLastD 0 - ft.headD 0
      if 0 < time_span then
        { stats1 with avg_fps := some (pyRound2 (((ft.length : Rat) - 1) / time_span)) }
      else stats1
    else stats1
  { m with cameras, frame_timestamps, stats := m.stats.insert camera_id stats2 }

/-- Result dict of `get_camera_status`.  The never-seen branch returns a
dict without the `time_since_update` key, hence the `Option`; its
`lastUpdate` is `None`. -/
structure CameraStatus where
  id : Nat
  status : String
  lastUpdate : Option Rat
  fps : Rat
  frames_received : Nat
  time_since_update : Option Rat
  deriving DecidableEq, Repr

/-- `get_camera_status(camera_id)` at instant `now`. -/
def get_camera_status (m : CameraManager) (camera_id : Nat) (now : Rat) :
    CameraStatus :=
  match m.cameras.find? camera_id with
  | none => ⟨camera_id, "inactive", none, 0, 0, none⟩
  | some camera_data =>
    let stats := m.stats.find? camera_id
    let time_since_update := now - camera_data.last_update
    let is_active := time_since_update < m.inactive_timeout
    ⟨camera_id,
     if is_active then "active" else "inactive",
     some camera_data.timestamp,
     ((stats.map (·.avg_fps)).getD none).getD 0,
     (stats.map (·.frames_received)).getD 0,
     some (pyRound2 time_since_update)⟩

/-- The body of the `for cam_id in list(self.cameras.keys())` loop of
`clear_inactive_cameras`, threading `(state, removed)`.  A key from the
snapshot that is no longer present is skipped (unreachable from dict
key snapshots, kept for totality). -/
def clearLoop (now : Rat) : List Nat → CameraManager × Nat → CameraManager × Nat
  | [], acc => acc
  | cam_id :: rest, (st, removed) =>
    match st.cameras.find? cam_id with
    | none => clearLoop now rest (st, removed)
    | some camera_data =>
      let time_since_update := now - camera_data.last_update
      if st.inactive_timeout * 2 < time_since_update then
        clearLoop now rest
          ({ st with cameras := st.cameras.erase cam_id,
                     frame_timestamps := st.frame_timestamps.erase cam_id,
                     stats := st.stats.erase cam_id }, removed + 1)
      else clearLoop now rest (st, removed)

/-- `clear_inactive_cameras()` at instant `now`: returns the new manager
and the removed count. -/
def clear_inactive_cameras (m : CameraManager) (now : Rat) : CameraManager × Nat :=
  clearLoop now m.cameras.keys (m, 0)

end CameraManager

/-! ## server.py — TrafficCameraServer

Connections are identified by naturals.  `closed` (whether the peer
socket is already closed) and `sendOk` (whether an individual
`await client.send(...)` succeeds) are external oracles: the network
decides them, the hub only reads them. -/

/-- One entry of the legacy `camera_streams` dict. -/
structure LegacyEntry where
  data : String
  timestamp : Rat
  deriving DecidableEq, Repr

/-- The hub state mutated by `TrafficCameraServer`'s handlers. -/
structure ServerState where
  clients : List Nat
  camera_manager : CameraManager
  camera_streams : AssocMap LegacyEntry
  deriving DecidableEq, Repr

namespace ServerState

/-- Fresh server: empty registry, `CameraManager(max_cameras=MAX_CAMERAS)`,
empty legacy dict. -/
def init : ServerState :=
  ⟨[], CameraManager.init MAX_CAMERAS, []⟩

/-- `self.clients.add(websocket)` (set add: no duplicate membership). -/
def addClient (clients : List Nat) (ws : Nat) : List Nat :=
  if ws ∈ clients then clients else clients ++ [ws]

/-- `register_client(websocket, path)`: add to the registry, send the
welcome message, then one stream message per entry of
`get_all_camera_data()` (a copy of the `cameras` dict) in dict
iteration order.  Returns the new state and the messages written to the
new connection, in order. -/
def register_client (st : ServerState) (ws : Nat) (now : Rat) :
    ServerState × List OutMessage :=
  ({ st with clients := addClient st.clients ws },
   OutMessage.connectionMsg now ::
     st.camera_manager.cameras.map
       (fun p => OutMessage.streamMsg (create_stream_message p.1 p.2.data now)))

/-- `_broadcast_stream(camera_id, base64_data, sender_websocket)`:
build the stream message once, then attempt a send to every registered
client that is not the sender and not already closed; individual send
outcomes (`sendOk`) are gathered with `return_exceptions=True`, so they
only feed the success count.  Returns the attempted deliveries and the
success count. -/
def broadcast_stream (clients : List Nat) (closed : Nat → Bool) (sender : Nat)
    (camera_id : Nat) (base64_data : String) (now : Rat) (sendOk : Nat → Bool) :
    List (Nat × StreamMessage) × Nat :=
  if clients.isEmpty then ([], 0)
  else
    let payload := create_stream_message camera_id base64_data now
    let tasks := (clients.filter (fun c => c ≠ sender ∧ ¬ closed c)).map
      (fun c => (c, payload))
    let results := tasks.map (fun t => sendOk t.1)
    (tasks, (results.filter (· = true)).length)

/-- `handle_binary_stream(data, sender_websocket)`: decode, validate the
camera id against `MAX_CAMERAS`, then update the manager, the legacy
dict, and broadcast.  Returns the new state and the attempted
deliveries (empty on the drop paths, which only log). -/
def handle_binary_stream (st : ServerState) (closed : Nat → Bool) (sender : Nat)
    (data : List Nat) (now : Rat) (sendOk : Nat → Bool) :
    ServerState × List (Nat × StreamMessage) :=
  match parse_binary_stream_packet data with
  | none => (st, [])
  | some parsed =>
    -- `camera_id < 0` is vacuous for a byte; `>= MAX_CAMERAS` is the live check
    if MAX_CAMERAS ≤ parsed.camera_id then (st, [])
    else
      let base64_data := jpeg_to_base64 parsed.jpeg_bytes
      let cm := st.camera_manager.update_camera parsed.camera_id base64_data now
      let streams := st.camera_streams.insert parsed.camera_id ⟨base64_data, now⟩
      let st' := { st with camera_manager := cm, camera_streams := streams }
      (st', (broadcast_stream st'.clients closed sender parsed.camera_id
        base64_data now sendOk).1)

/-- `handle_camera_stream_text(message, sender_websocket)`: the legacy
text path; the parsed camera id is a Python `int`, so it can be
negative and both bounds are live. -/
def handle_camera_stream_text (st : ServerState) (closed : Nat → Bool) (sender : Nat)
    (message : String) (now : Rat) (sendOk : Nat → Bool) :
    ServerState × List (Nat × StreamMessage) :=
  match parse_text_stream_message message with
  | none => (st, [])
  | some (camera_id, base64_data) =>
    if camera_id < 0 ∨ (MAX_CAMERAS : Int) ≤ camera_id then (st, [])
    else
      let cid := camera_id.toNat
      let cm := st.camera_manager.update_camera cid base64_data now
      let streams := st.camera_streams.insert cid ⟨base64_data, now⟩
      let st' := { st with camera_manager := cm, camera_streams := streams }
      (st', (broadcast_stream st'.clients closed sender cid base64_data now sendOk).1)

end ServerState

/-! ## Little-endian byte lemmas -/

theorem length_natToLEBytes (k n : Nat) : (natToLEBytes k n).length = k := by
  induction k generalizing n with
  | zero => rfl
  | succ k ih => simp [natToLEBytes, ih]

@[simp] theorem leUInt_nil : leUInt [] = 0 := rfl

theorem leUInt_cons (b : Nat) (bs : List Nat) :
    leUInt (b :: bs) = leUInt bs * 256 + b := rfl

theorem leUInt_natToLEBytes (k n : Nat) :
    leUInt (natToLEBytes k n) = n % 256 ^ k := by
  induction k generalizing n with
  | zero => simp [natToLEBytes, Nat.mod_one]
  | succ k ih =>
    rw [natToLEBytes, leUInt_cons, ih, pow_succ', Nat.mod_mul]
    ring

theorem leUInt_natToLEBytes_of_lt (k n : Nat) (h : n < 256 ^ k) :
    leUInt (natToLEBytes k n) = n := by
  rw [leUInt_natToLEBytes, Nat.mod_eq_of_lt h]

/-- Two's-complement round trip: packing a signed 64-bit value with
`<q` and decoding the 8 bytes back recovers it. -/
theorem leInt64_natToLEBytes_emod (t : Int)
    (h1 : -(2 ^ 63) ≤ t) (h2 : t < 2 ^ 63) :
    leInt64 (natToLEBytes 8 (t % 2 ^ 64).toNat) = t := by
  have e63 : (2 : Int) ^ 63 = 9223372036854775808 := by norm_num
  have e64 : (2 : Int) ^ 64 = 18446744073709551616 := by norm_num
  have n63 : (2 : Nat) ^ 63 = 9223372036854775808 := by norm_num
  have n64 : (256 : Nat) ^ 8 = 18446744073709551616 := by norm_num
  have hnn : (0 : Int) ≤ t % 2 ^ 64 := Int.emod_nonneg t (by norm_num)
  have hlt : t % 2 ^ 64 < 2 ^ 64 := Int.emod_lt_of_pos t (by norm_num)
  set u : Nat := (t % 2 ^ 64).toNat with hu
  have hcast : (u : Int) = t % 2 ^ 64 := Int.toNat_of_nonneg hnn
  have hult : u < 18446744073709551616 := by omega
  have hdecode : leUInt (natToLEBytes 8 u) = u :=
    leUInt_natToLEBytes_of_lt 8 u (by omega)
  rw [leInt64, hdecode]
  rcases le_or_lt 0 t with hpos | hneg
  · have hemod : t % 2 ^ 64 = t := Int.emod_eq_of_lt hpos (by omega)
    have hut : (u : Int) = t := by rw [hcast, hemod]
    have hu63 : ¬ u ≥ 2 ^ 63 := by
      rw [n63]
      omega
    rw [if_neg hu63]
    exact hut
  · have hemod : t % 2 ^ 64 = t + 2 ^ 64 := by
      have hself : (t + 2 ^ 64 * 1) % 2 ^ 64 = t % 2 ^ 64 :=
        Int.add_mul_emod_self_left t (2 ^ 64) 1
      rw [mul_one] at hself
      rw [← hself, Int.emod_eq_of_lt (by omega) (by omega)]
    have hcast2 : (u : Int) = t + 2 ^ 64 := by rw [hcast, hemod]
    have hu63 : u ≥ 2 ^ 63 := by
      rw [n63]
      omega
    rw [if_pos hu63]
    omega

/-! ## Claim theorems -/

/-- C2: for every binary message with declared payload length `L`
(bytes 9–12, little-endian unsigned), if the total length is at least
`13 + L` the decode succeeds and returns `camera_id` = byte 0 with
exactly `L` payload bytes; if the total length is below `13 + L`
(including messages shorter than the 13-byte header) the decode fails
and returns nothing. -/
theorem binary_decode_length_contract (data : List Nat) :
    (13 ≤ data.length → 13 + leUInt ((data.drop 9).take 4) ≤ data.length →
      ∃ p, parse_binary_stream_packet data = some p ∧
        p.camera_id = data.headD 0 ∧
        p.jpeg_bytes.length = leUInt ((data.drop 9).take 4)) ∧
    (data.length < 13 + leUInt ((data.drop 9).take 4) →
      parse_binary_stream_packet data = none) := by
  constructor
  · intro hhdr hfit
    have heq : parse_binary_stream_packet data =
        some ⟨data.headD 0, leInt64 ((data.drop 1).take 8),
          (data.drop 13).take (leUInt ((data.drop 9).take 4)),
          leUInt ((data.drop 9).take 4)⟩ := by
      rw [parse_binary_stream_packet,
        if_neg (by simpa [BINARY_HEADER_SIZE] using not_lt.mpr hhdr),
        if_neg (by simpa [BINARY_HEADER_SIZE] using not_lt.mpr hfit)]
    refine ⟨_, heq, rfl, ?_⟩
    rw [List.length_take, List.length_drop]
    have : leUInt ((data.drop 9).take 4) ≤ data.length - 13 := by omega
    exact min_eq_left this
  · intro hshort
    rw [parse_binary_stream_packet]
    by_cases hhdr : data.length < BINARY_HEADER_SIZE
    · rw [if_pos hhdr]
    · rw [if_neg hhdr,
        if_pos (by simpa [BINARY_HEADER_SIZE] using hshort)]

/-- C2 witness: a 15-byte packet with declared length 2 decodes to its
2-byte payload, and a 1-byte message fails to decode. -/
theorem binary_decode_length_contract_witness :
    (∃ p, parse_binary_stream_packet
        ([1] ++ [0, 0, 0, 0, 0, 0, 0, 0] ++ [2, 0, 0, 0] ++ [5, 6]) = some p ∧
      p.camera_id =
        ([1] ++ [0, 0, 0, 0, 0, 0, 0, 0] ++ [2, 0, 0, 0] ++ [5, 6] : List Nat).headD 0 ∧
      p.jpeg_bytes.length =
        leUInt ((([1] ++ [0, 0, 0, 0, 0, 0, 0, 0] ++ [2, 0, 0, 0] ++
          [5, 6] : List Nat).drop 9).take 4)) ∧
    parse_binary_stream_packet [0] = none :=
  ⟨(binary_decode_length_contract
      ([1] ++ [0, 0, 0, 0, 0, 0, 0, 0] ++ [2, 0, 0, 0] ++ [5, 6])).1
        (by decide) (by decide),
   (binary_decode_length_contract [0]).2 (by decide)⟩

/-- C9: for every `camera_id < 256`, signed-64-bit `timestamp_ticks`
and payload shorter than `2^32` bytes, parsing the packet produced by
`create_binary_stream_packet` succeeds and recovers exactly those three
values. -/
theorem binary_roundtrip (camera_id : Nat) (jpeg_bytes : List Nat) (t : Int)
    (h1 : camera_id < 256) (h2 : -(2 ^ 63) ≤ t) (h3 : t < 2 ^ 63)
    (h4 : jpeg_bytes.length < 2 ^ 32) :
    ∃ pkt, create_binary_stream_packet camera_id jpeg_bytes t = some pkt ∧
      parse_binary_stream_packet pkt =
        some ⟨camera_id, t, jpeg_bytes, jpeg_bytes.length⟩ := by
  refine ⟨[camera_id] ++ natToLEBytes 8 (t % 2 ^ 64).toNat ++
      natToLEBytes 4 jpeg_bytes.length ++ jpeg_bytes, ?_, ?_⟩
  · rw [create_binary_stream_packet, if_pos ⟨h1, h2, h3, h4⟩]
  · set ts8 := natToLEBytes 8 (t % 2 ^ 64).toNat with hts8
    set len4 := natToLEBytes 4 jpeg_bytes.length with hlen4
    have hts8len : ts8.length = 8 := length_natToLEBytes 8 _
    have hlen4len : len4.length = 4 := length_natToLEBytes 4 _
    set pkt := [camera_id] ++ ts8 ++ len4 ++ jpeg_bytes with hpkt
    have hlen : pkt.length = 13 + jpeg_bytes.length := by
      simp [hpkt, hts8len, hlen4len]
      omega
    have hdrop1 : pkt.drop 1 = ts8 ++ (len4 ++ jpeg_bytes) := by
      rw [hpkt, List.append_assoc, List.append_assoc]
      exact List.drop_left' rfl
    have htake8 : (pkt.drop 1).take 8 = ts8 := by
      rw [hdrop1]
      exact List.take_left' hts8len
    have hdrop9 : pkt.drop 9 = len4 ++ jpeg_bytes := by
      rw [hpkt, List.append_assoc]
      exact List.drop_left' (by simp [hts8len])
    have htake4 : (pkt.drop 9).take 4 = len4 := by
      rw [hdrop9]
      exact List.take_left' hlen4len
    have hdrop13 : pkt.drop 13 = jpeg_bytes := by
      rw [hpkt]
      exact List.drop_left' (by simp [hts8len, hlen4len])
    have hL : leUInt ((pkt.drop 9).take 4) = jpeg_bytes.length := by
      rw [htake4, hlen4]
      exact leUInt_natToLEBytes_of_lt 4 _ (by norm_num at h4 ⊢; omega)
    have hts : leInt64 ((pkt.drop 1).take 8) = t := by
      rw [htake8, hts8]
      exact leInt64_natToLEBytes_emod t h2 h3
    have hhead : pkt.headD 0 = camera_id := by rw [hpkt]; rfl
    rw [parse_binary_stream_packet,
      if_neg (by rw [hlen]; simp [BINARY_HEADER_SIZE]),
      hL, if_neg (by rw [hlen]; simp [BINARY_HEADER_SIZE]), hhead, hts, hdrop13,
      List.take_length]

/-- C9 witness: concrete round trip for camera 7, timestamp −5 and a
3-byte payload. -/
theorem binary_roundtrip_witness :
    ∃ pkt, create_binary_stream_packet 7 [10, 20, 30] (-5) = some pkt ∧
      parse_binary_stream_packet pkt = some ⟨7, -5, [10, 20, 30], 3⟩ :=
  binary_roundtrip 7 [10, 20, 30] (-5)
    (by decide) (by norm_num) (by norm_num) (by norm_num)

/-! ## splitFirst lemmas (for the text protocol) -/

theorem splitFirst_eq_none_iff (c : Char) (l : List Char) :
    splitFirst c l = none ↔ c ∉ l := by
  induction l with
  | nil => simp [splitFirst]
  | cons x rest ih =>
    by_cases hx : x = c
    · subst hx
      simp [splitFirst]
    · rw [splitFirst, if_neg hx]
      cases hs : splitFirst c rest with
      | none => simp [hs, ih.mp hs, Ne.symm hx]
      | some p =>
        have : c ∈ rest := by
          by_contra hmem
          rw [ih.mpr hmem] at hs
          exact Option.noConfusion hs
        simp [hs, this]

theorem splitFirst_append (c : Char) (l₁ l₂ : List Char) (h : c ∉ l₁) :
    splitFirst c (l₁ ++ c :: l₂) = some (l₁, l₂) := by
  induction l₁ with
  | nil => simp [splitFirst]
  | cons x rest ih =>
    have hx : ¬ x = c := fun he => h (by simp [he])
    have hrest : c ∉ rest := fun hm => h (by simp [hm])
    rw [List.cons_append, splitFirst, if_neg hx, ih hrest]
    rfl

theorem splitFirst_some_spec (c : Char) (l : List Char) (a r : List Char)
    (h : splitFirst c l = some (a, r)) : l = a ++ c :: r ∧ c ∉ a := by
  induction l generalizing a r with
  | nil => exact Option.noConfusion h
  | cons x rest ih =>
    by_cases hx : x = c
    · subst hx
      rw [splitFirst, if_pos rfl] at h
      simp only [Option.some.injEq, Prod.mk.injEq] at h
      obtain ⟨ha, hr⟩ := h
      subst ha
      subst hr
      simp
    · rw [splitFirst, if_neg hx] at h
      cases hs : splitFirst c rest with
      | none =>
        rw [hs] at h
        exact Option.noConfusion h
      | some p =>
        rw [hs] at h
        simp only [Option.map_some', Option.some.injEq] at h
        obtain ⟨p1, p2⟩ := p
        simp only [Prod.mk.injEq] at h
        obtain ⟨ha, hr⟩ := h
        subst hr
        obtain ⟨hl, hc⟩ := ih p1 p2 hs
        constructor
        · rw [← ha, hl]
          rfl
        · rw [← ha]
          intro hmem
          rcases List.mem_cons.mp hmem with he | hm
          · exact hx he.symm
          · exact hc hm

/-- C8: the text decoder splits on the first two `:` only (the payload
segment may contain further `:`), returning the parsed integer index
and the payload verbatim; with fewer than three segments it fails; and
`CAMERA_STREAM:2:QUJD` decodes to index 2 with payload `QUJD`. -/
theorem text_decode_contract :
    (∀ tag idx payload : String, ':' ∉ tag.toList → ':' ∉ idx.toList →
      parse_text_stream_message (tag ++ ":" ++ idx ++ ":" ++ payload) =
        (pyInt? idx).map (fun n => (n, payload))) ∧
    (∀ s : String, s.toList.count ':' < 2 → parse_text_stream_message s = none) ∧
    parse_text_stream_message "CAMERA_STREAM:2:QUJD" = some (2, "QUJD") := by
  refine ⟨?_, ?_, by decide⟩
  · intro tag idx payload htag hidx
    have htl : (tag ++ ":" ++ idx ++ ":" ++ payload).toList =
        tag.toList ++ ':' :: (idx.toList ++ ':' :: payload.toList) := by
      simp [String.toList, String.data_append]
    have h1 : splitFirst ':' (tag ++ ":" ++ idx ++ ":" ++ payload).toList =
        some (tag.toList, idx.toList ++ ':' :: payload.toList) := by
      rw [htl]
      exact splitFirst_append ':' tag.toList _ htag
    have h2 : splitFirst ':' (idx.toList ++ ':' :: payload.toList) =
        some (idx.toList, payload.toList) :=
      splitFirst_append ':' idx.toList _ hidx
    have hparts : pySplit2Colon (tag ++ ":" ++ idx ++ ":" ++ payload) =
        [tag, idx, payload] := by
      unfold pySplit2Colon
      simp only [h1, h2]
      rfl
    rw [parse_text_stream_message, hparts]
    rfl
  · intro s hcount
    rw [parse_text_stream_message]
    unfold pySplit2Colon
    cases hs : splitFirst ':' s.toList with
    | none => simp
    | some p =>
      obtain ⟨a, r⟩ := p
      obtain ⟨hl, hna⟩ := splitFirst_some_spec ':' s.toList a r hs
      have ha0 : a.count ':' = 0 := List.count_eq_zero.mpr hna
      have hcr : r.count ':' = 0 := by
        have hsplit : s.toList.count ':' = a.count ':' + (r.count ':' + 1) := by
          rw [hl]
          simp [List.count_append]
        omega
      have h2 : splitFirst ':' r = none :=
        (splitFirst_eq_none_iff ':' r).mpr (List.count_eq_zero.mp hcr)
      simp only [hs, h2]
      simp

/-- C8 witness: a tagged message with a `:` inside the payload decodes
keeping the payload whole, and a colon-free message fails. -/
theorem text_decode_contract_witness :
    parse_text_stream_message "CAMERA_STREAM:-7:a:b" = some (-7, "a:b") ∧
    parse_text_stream_message "nodelimiters" = none := by
  constructor
  · have h := text_decode_contract.1 "CAMERA_STREAM" "-7" "a:b"
      (by decide) (by decide)
    simpa using h
  · exact text_decode_contract.2.1 "nodelimiters" (by decide)

/-- C6: `status(i)` reports `"active"` exactly when
`now − last_seen < inactivity_timeout` and `"inactive"` otherwise; an
index with no stored record reports `"inactive"` with `fps` 0 and
`frames_received` 0. -/
theorem camera_status_contract (m : CameraManager) (i : Nat) (now : Rat) :
    (∀ cd, m.cameras.find? i = some cd →
      (((m.get_camera_status i now).status = "active" ↔
          now - cd.last_update < m.inactive_timeout) ∧
       ((m.get_camera_status i now).status = "inactive" ↔
          ¬ now - cd.last_update < m.inactive_timeout))) ∧
    (m.cameras.find? i = none →
      (m.get_camera_status i now).status = "inactive" ∧
      (m.get_camera_status i now).fps = 0 ∧
      (m.get_camera_status i now).frames_received = 0) := by
  constructor
  · intro cd hcd
    rw [CameraManager.get_camera_status, hcd]
    by_cases hact : now - cd.last_update < m.inactive_timeout
    · simp [hact]
    · simp [hact]
  · intro hnone
    rw [CameraManager.get_camera_status, hnone]
    exact ⟨rfl, rfl, rfl⟩

/-- C6 witness: a fresh manager that saw camera 0 at time 0 reports it
active at time 1; camera 3, never seen, reports inactive with zeroed
counters. -/
theorem camera_status_contract_witness :
    (((CameraManager.init 4).update_camera 0 "d" 0).get_camera_status 0 1).status
        = "active" ∧
    (((CameraManager.init 4).update_camera 0 "d" 0).get_camera_status 3 1).status
        = "inactive" ∧
    (((CameraManager.init 4).update_camera 0 "d" 0).get_camera_status 3 1).fps = 0 ∧
    (((CameraManager.init 4).update_camera 0 "d" 0).get_camera_status 3 1).frames_received
        = 0 := by
  have hseen := (camera_status_contract
      ((CameraManager.init 4).update_camera 0 "d" 0) 0 1).1
    ⟨"d", 0, 0⟩ rfl
  have hunseen := (camera_status_contract
      ((CameraManager.init 4).update_camera 0 "d" 0) 3 1).2 rfl
  refine ⟨hseen.1.mpr ?_, hunseen.1, hunseen.2.1, hunseen.2.2⟩
  show (1 : Rat) - 0 < 10
  norm_num

/-- C4 (as amended): in a broadcast the attempted deliveries are exactly
the registered connections that are neither the sender nor already
closed, every attempt carries the one message built for the event, the
attempted set does not depend on the per-target send outcomes, and the
sender never receives its own frame. -/
theorem broadcast_targets_contract (clients : List Nat) (closed : Nat → Bool)
    (sender camera_id : Nat) (data : String) (now : Rat) (sendOk : Nat → Bool) :
    (ServerState.broadcast_stream clients closed sender camera_id data now sendOk).1 =
      (clients.filter (fun c => c ≠ sender ∧ ¬ closed c)).map
        (fun c => (c, create_stream_message camera_id data now)) ∧
    (∀ sendOk' : Nat → Bool,
      (ServerState.broadcast_stream clients closed sender camera_id data now sendOk').1 =
      (ServerState.broadcast_stream clients closed sender camera_id data now sendOk).1) ∧
    sender ∉ (ServerState.broadcast_stream clients closed sender camera_id data now
        sendOk).1.map Prod.fst := by
  have hmain : ∀ f : Nat → Bool,
      (ServerState.broadcast_stream clients closed sender camera_id data now f).1 =
        (clients.filter (fun c => c ≠ sender ∧ ¬ closed c)).map
          (fun c => (c, create_stream_message camera_id data now)) := by
    intro f
    rw [ServerState.broadcast_stream]
    by_cases he : clients.isEmpty
    · rw [if_pos he, List.isEmpty_iff.mp he]
      rfl
    · rw [if_neg he]
  refine ⟨hmain sendOk, fun f => (hmain f).trans (hmain sendOk).symm, ?_⟩
  rw [hmain sendOk, List.map_map]
  intro hmem
  rw [List.mem_map] at hmem
  obtain ⟨c, hc, hcs⟩ := hmem
  rw [List.mem_filter] at hc
  have : c ≠ sender ∧ ¬ closed c = true := by
    have := hc.2
    simpa using this
  exact this.1 hcs

/-- C4 counterexample: with registry `{10, 11, 12}`, connection 12
already closed and 10 the sender, the attempted deliveries are only to
11 — connection 12 is registered and not the sender, yet no delivery is
attempted to it, refuting "attempted = registered minus sender". -/
theorem broadcast_targets_counterexample :
    (ServerState.broadcast_stream [10, 11, 12] (fun c => decide (c = 12)) 10
        0 "d" 0 (fun _ => true)).1.map Prod.fst = [11] ∧
    12 ∈ [10, 11, 12] ∧ (12 : Nat) ≠ 10 ∧
    12 ∉ (ServerState.broadcast_stream [10, 11, 12] (fun c => decide (c = 12)) 10
        0 "d" 0 (fun _ => true)).1.map Prod.fst := by
  refine ⟨rfl, by decide, by decide, ?_⟩
  intro hmem
  rw [show (ServerState.broadcast_stream [10, 11, 12] (fun c => decide (c = 12)) 10
      0 "d" 0 (fun _ => true)).1.map Prod.fst = [11] from rfl] at hmem
  exact absurd hmem (by decide)

/-- C3: an inbound message that fails to decode, or decodes to a camera
index outside `[0, MAX_CAMERAS)`, leaves the hub state untouched
(camera records, statistics, FPS windows, legacy dict and the registry
— so the sending connection stays registered and open) and triggers no
fan-out, on both the binary and the legacy text path. -/
theorem invalid_message_is_noop :
    (∀ (st : ServerState) (closed : Nat → Bool) (sender : Nat) (data : List Nat)
        (now : Rat) (sendOk : Nat → Bool),
      (parse_binary_stream_packet data = none ∨
        ∃ p, parse_binary_stream_packet data = some p ∧ MAX_CAMERAS ≤ p.camera_id) →
      ServerState.handle_binary_stream st closed sender data now sendOk = (st, [])) ∧
    (∀ (st : ServerState) (closed : Nat → Bool) (sender : Nat) (message : String)
        (now : Rat) (sendOk : Nat → Bool),
      (parse_text_stream_message message = none ∨
        ∃ n d, parse_text_stream_message message = some (n, d) ∧
          (n < 0 ∨ (MAX_CAMERAS : Int) ≤ n)) →
      ServerState.handle_camera_stream_text st closed sender message now sendOk =
        (st, [])) := by
  constructor
  · intro st closed sender data now sendOk h
    rcases h with hnone | ⟨p, hsome, hrange⟩
    · rw [ServerState.handle_binary_stream]
      rw [hnone]
    · rw [ServerState.handle_binary_stream]
      rw [hsome]
      simp only [if_pos hrange]
  · intro st closed sender message now sendOk h
    rcases h with hnone | ⟨n, d, hsome, hrange⟩
    · rw [ServerState.handle_camera_stream_text]
      rw [hnone]
    · rw [ServerState.handle_camera_stream_text]
      rw [hsome]
      simp only [if_pos hrange]

/-- C3 witness: a 1-byte binary message (decode failure) and a text
message for camera 9 (out of range) both leave a fresh server unchanged
with no fan-out. -/
theorem invalid_message_is_noop_witness :
    ServerState.handle_binary_stream ServerState.init (fun _ => false) 0 [0] 0
        (fun _ => true) = (ServerState.init, []) ∧
    ServerState.handle_camera_stream_text ServerState.init (fun _ => false) 0
        "CAMERA_STREAM:9:xyz" 0 (fun _ => true) = (ServerState.init, []) :=
  ⟨invalid_message_is_noop.1 ServerState.init (fun _ => false) 0 [0] 0
      (fun _ => true) (Or.inl rfl),
   invalid_message_is_noop.2 ServerState.init (fun _ => false) 0
      "CAMERA_STREAM:9:xyz" 0 (fun _ => true)
      (Or.inr ⟨9, "xyz", by decide, Or.inr (by norm_num [MAX_CAMERAS])⟩)⟩

/-- Camera indices of the stream messages of a hub-to-client message
sequence, in send order. -/
def catchupCameraIds (msgs : List OutMessage) : List Nat :=
  msgs.filterMap (fun m => match m with
    | OutMessage.streamMsg s => some s.cameraId
    | OutMessage.connectionMsg _ => none)

theorem filterMap_some_comp {α β : Type} (f : α → β) (l : List α) :
    l.filterMap (fun a => some (f a)) = l.map f := by
  induction l with
  | nil => rfl
  | cons x rest ih => simp [List.filterMap_cons, ih]

/-- C1 (as amended): a newly registered connection first receives the
connection-established message and then exactly one stream message per
camera with a live frame, in the iteration order of the camera-record
dict (the order in which the cameras' records were first created), with
no subsequent live broadcast modelled before registration returns. -/
theorem register_catchup_contract (st : ServerState) (ws : Nat) (now : Rat)
    (hnodup : st.camera_manager.cameras.keys.Nodup) :
    (ServerState.register_client st ws now).2.head? =
        some (OutMessage.connectionMsg now) ∧
    catchupCameraIds (ServerState.register_client st ws now).2 =
        st.camera_manager.cameras.keys ∧
    ∀ i, (catchupCameraIds (ServerState.register_client st ws now).2).count i =
        if (st.camera_manager.cameras.find? i).isSome then 1 else 0 := by
  have hids : catchupCameraIds (ServerState.register_client st ws now).2 =
      st.camera_manager.cameras.keys := by
    rw [ServerState.register_client, catchupCameraIds]
    rw [List.filterMap_cons]
    show (st.camera_manager.cameras.map _).filterMap _ = _
    rw [List.filterMap_map]
    exact filterMap_some_comp Prod.fst st.camera_manager.cameras
  refine ⟨rfl, hids, ?_⟩
  intro i
  rw [hids]
  by_cases hi : i ∈ st.camera_manager.cameras.keys
  · rw [if_pos ((AssocMap.find?_isSome_iff_mem_keys _ _).mpr hi)]
    exact List.count_eq_one_of_mem hnodup hi
  · rw [if_neg (fun hs => hi ((AssocMap.find?_isSome_iff_mem_keys _ _).mp hs))]
    exact List.count_eq_zero.mpr hi

/-- C1 amended-claim witness: on a hub that saw camera 1 first and then
camera 0, registration sends one catch-up message per live camera in
record-creation order `[1, 0]`. -/
theorem register_catchup_contract_witness :
    catchupCameraIds (ServerState.register_client
        { ServerState.init with camera_manager :=
            ((CameraManager.init 4).update_camera 1 "a" 0).update_camera 0 "b" 1 }
        5 2).2 =
      ({ ServerState.init with camera_manager :=
          ((CameraManager.init 4).update_camera 1 "a" 0).update_camera 0 "b" 1
        } : ServerState).camera_manager.cameras.keys ∧
    ∀ i, (catchupCameraIds (ServerState.register_client
        { ServerState.init with camera_manager :=
            ((CameraManager.init 4).update_camera 1 "a" 0).update_camera 0 "b" 1 }
        5 2).2).count i =
      if (({ ServerState.init with camera_manager :=
          ((CameraManager.init 4).update_camera 1 "a" 0).update_camera 0 "b" 1
        } : ServerState).camera_manager.cameras.find? i).isSome then 1 else 0 := by
  have h := register_catchup_contract
    { ServerState.init with camera_manager :=
        ((CameraManager.init 4).update_camera 1 "a" 0).update_camera 0 "b" 1 }
    5 2 (by
      show List.Nodup [1, 0]
      decide)
  exact ⟨h.2.1, h.2.2⟩

/-- C1 counterexample: the same hub (camera 1 seen before camera 0)
sends its catch-up messages in order `[1, 0]`, which is not ascending
camera-index order — dict iteration order, not index order, drives the
catch-up sequence. -/
theorem register_catchup_counterexample :
    catchupCameraIds (ServerState.register_client
        { ServerState.init with camera_manager :=
            ((CameraManager.init 4).update_camera 1 "a" 0).update_camera 0 "b" 1 }
        5 2).2 = [1, 0] ∧
    ¬ List.Sorted (· ≤ ·) (catchupCameraIds (ServerState.register_client
        { ServerState.init with camera_manager :=
            ((CameraManager.init 4).update_camera 1 "a" 0).update_camera 0 "b" 1 }
        5 2).2) := by
  refine ⟨rfl, ?_⟩
  rw [show catchupCameraIds (ServerState.register_client
      { ServerState.init with camera_manager :=
          ((CameraManager.init 4).update_camera 1 "a" 0).update_camera 0 "b" 1 }
      5 2).2 = [1, 0] from rfl]
  decide

/-! ## clearLoop lemmas (for the sweep) -/

namespace CameraManager

/-- The loop body never changes `inactive_timeout`. -/
theorem clearLoop_timeout (now : Rat) (ks : List Nat) (st : CameraManager) (r : Nat) :
    (clearLoop now ks (st, r)).1.inactive_timeout = st.inactive_timeout := by
  induction ks generalizing st r with
  | nil => rfl
  | cons j rest ih =>
    rw [clearLoop]
    cases hj : st.cameras.find? j with
    | none => exact ih st r
    | some cdj =>
      simp only []
      by_cases hc : st.inactive_timeout * 2 < now - cdj.last_update
      · rw [if_pos hc]
        exact ih _ _
      · rw [if_neg hc]
        exact ih st r

/-- Indices not listed in the key snapshot keep all three entries. -/
theorem clearLoop_not_mem (now : Rat) (ks : List Nat) (i : Nat) (hi : i ∉ ks) :
    ∀ (st : CameraManager) (r : Nat),
      (clearLoop now ks (st, r)).1.cameras.find? i = st.cameras.find? i ∧
      (clearLoop now ks (st, r)).1.frame_timestamps.find? i =
        st.frame_timestamps.find? i ∧
      (clearLoop now ks (st, r)).1.stats.find? i = st.stats.find? i := by
  induction ks with
  | nil => exact fun st r => ⟨rfl, rfl, rfl⟩
  | cons j rest ih =>
    intro st r
    have hij : i ≠ j := fun he => hi (by simp [he])
    have hirest : i ∉ rest := fun hm => hi (by simp [hm])
    rw [clearLoop]
    cases hj : st.cameras.find? j with
    | none => exact ih hirest st r
    | some cdj =>
      simp only []
      by_cases hc : st.inactive_timeout * 2 < now - cdj.last_update
      · rw [if_pos hc]
        have h := ih hirest
          { st with cameras := st.cameras.erase j,
                    frame_timestamps := st.frame_timestamps.erase j,
                    stats := st.stats.erase j } (r + 1)
        rw [h.1, h.2.1, h.2.2]
        exact ⟨AssocMap.find?_erase_ne _ _ _ hij, AssocMap.find?_erase_ne _ _ _ hij,
          AssocMap.find?_erase_ne _ _ _ hij⟩
      · rw [if_neg hc]
        exact ih hirest st r

/-- Once an index has no entries, the loop never resurrects them. -/
theorem clearLoop_none_stays (now : Rat) (ks : List Nat) (i : Nat) :
    ∀ (st : CameraManager) (r : Nat),
      st.cameras.find? i = none →
      st.frame_timestamps.find? i = none →
      st.stats.find? i = none →
      (clearLoop now ks (st, r)).1.cameras.find? i = none ∧
      (clearLoop now ks (st, r)).1.frame_timestamps.find? i = none ∧
      (clearLoop now ks (st, r)).1.stats.find? i = none := by
  induction ks with
  | nil => exact fun st r h1 h2 h3 => ⟨h1, h2, h3⟩
  | cons j rest ih =>
    intro st r h1 h2 h3
    have herase : ∀ (β : Type) (m : AssocMap β), AssocMap.find? m i = none →
        AssocMap.find? (AssocMap.erase m j) i = none := by
      intro β m hm
      by_cases hij : i = j
      · subst hij
        exact AssocMap.find?_erase_self m i
      · rw [AssocMap.find?_erase_ne m j i hij]
        exact hm
    rw [clearLoop]
    cases hj : st.cameras.find? j with
    | none => exact ih st r h1 h2 h3
    | some cdj =>
      simp only []
      by_cases hc : st.inactive_timeout * 2 < now - cdj.last_update
      · rw [if_pos hc]
        exact ih _ _ (herase _ _ h1) (herase _ _ h2) (herase _ _ h3)
      · rw [if_neg hc]
        exact ih st r h1 h2 h3

/-- A listed index whose record is silent past the cutoff is fully
evicted: all three entries end up absent. -/
theorem clearLoop_evicts (now : Rat) (ks : List Nat) (i : Nat) :
    ∀ (st : CameraManager) (r : Nat) (cd : FrameRecord),
      i ∈ ks →
      st.cameras.find? i = some cd →
      st.inactive_timeout * 2 < now - cd.last_update →
      (clearLoop now ks (st, r)).1.cameras.find? i = none ∧
      (clearLoop now ks (st, r)).1.frame_timestamps.find? i = none ∧
      (clearLoop now ks (st, r)).1.stats.find? i = none := by
  induction ks with
  | nil =>
    intro st r cd hmem
    exact absurd hmem (List.not_mem_nil i)
  | cons j rest ih =>
    intro st r cd hmem hfind hsilent
    by_cases hij : i = j
    · subst hij
      rw [clearLoop, hfind]
      simp only []
      rw [if_pos hsilent]
      exact clearLoop_none_stays now rest i _ (r + 1)
        (AssocMap.find?_erase_self _ i) (AssocMap.find?_erase_self _ i)
        (AssocMap.find?_erase_self _ i)
    · have hirest : i ∈ rest := by
        rcases List.mem_cons.mp hmem with he | hm
        · exact absurd he hij
        · exact hm
      rw [clearLoop]
      cases hj : st.cameras.find? j with
      | none => exact ih st r cd hirest hfind hsilent
      | some cdj =>
        simp only []
        by_cases hc : st.inactive_timeout * 2 < now - cdj.last_update
        · rw [if_pos hc]
          refine ih _ (r + 1) cd hirest ?_ hsilent
          rw [AssocMap.find?_erase_ne _ _ _ hij]
          exact hfind
        · rw [if_neg hc]
          exact ih st r cd hirest hfind hsilent

/-- An index whose record (if any) is not silent past the cutoff keeps
all three entries unchanged. -/
theorem clearLoop_retains (now : Rat) (ks : List Nat) (i : Nat) :
    ∀ (st : CameraManager) (r : Nat),
      (∀ cd, st.cameras.find? i = some cd →
        ¬ st.inactive_timeout * 2 < now - cd.last_update) →
      (clearLoop now ks (st, r)).1.cameras.find? i = st.cameras.find? i ∧
      (clearLoop now ks (st, r)).1.frame_timestamps.find? i =
        st.frame_timestamps.find? i ∧
      (clearLoop now ks (st, r)).1.stats.find? i = st.stats.find? i := by
  induction ks with
  | nil => exact fun st r _ => ⟨rfl, rfl, rfl⟩
  | cons j rest ih =>
    intro st r hkeep
    rw [clearLoop]
    cases hj : st.cameras.find? j with
    | none => exact ih st r hkeep
    | some cdj =>
      simp only []
      by_cases hc : st.inactive_timeout * 2 < now - cdj.last_update
      · rw [if_pos hc]
        have hij : i ≠ j := by
          intro he
          subst he
          exact hkeep cdj hj hc
        have hkeep' : ∀ cd,
            (AssocMap.erase st.cameras j).find? i = some cd →
            ¬ st.inactive_timeout * 2 < now - cd.last_update := by
          intro cd hcd
          rw [AssocMap.find?_erase_ne _ _ _ hij] at hcd
          exact hkeep cd hcd
        have h := ih
          { st with cameras := st.cameras.erase j,
                    frame_timestamps := st.frame_timestamps.erase j,
                    stats := st.stats.erase j } (r + 1) hkeep'
        rw [h.1, h.2.1, h.2.2]
        exact ⟨AssocMap.find?_erase_ne _ _ _ hij, AssocMap.find?_erase_ne _ _ _ hij,
          AssocMap.find?_erase_ne _ _ _ hij⟩
      · rw [if_neg hc]
        exact ih st r hkeep

/-- Whether the loop would evict key `k` as judged against state `st`. -/
def silentCheck (now : Rat) (st : CameraManager) (k : Nat) : Bool :=
  match st.cameras.find? k with
  | some cd => decide (st.inactive_timeout * 2 < now - cd.last_update)
  | none => false

/-- The loop's removal counter counts the silent keys of the snapshot. -/
theorem clearLoop_count (now : Rat) (ks : List Nat) :
    ∀ (st : CameraManager) (r : Nat), ks.Nodup →
      (clearLoop now ks (st, r)).2 = r + ks.countP (silentCheck now st) := by
  induction ks with
  | nil =>
    intro st r _
    simp [clearLoop]
  | cons j rest ih =>
    intro st r hnd
    have hjrest : j ∉ rest := (List.nodup_cons.mp hnd).1
    have hrest : rest.Nodup := (List.nodup_cons.mp hnd).2
    rw [clearLoop]
    cases hj : st.cameras.find? j with
    | none =>
      rw [ih st r hrest, List.countP_cons]
      have hz : silentCheck now st j = false := by
        simp [silentCheck, hj]
      rw [hz]
      simp
    | some cdj =>
      simp only []
      by_cases hc : st.inactive_timeout * 2 < now - cdj.last_update
      · rw [if_pos hc]
        rw [ih { st with cameras := st.cameras.erase j,
                         frame_timestamps := st.frame_timestamps.erase j,
                         stats := st.stats.erase j } (r + 1) hrest]
        have hcongr : rest.countP (silentCheck now
            { st with cameras := st.cameras.erase j,
                      frame_timestamps := st.frame_timestamps.erase j,
                      stats := st.stats.erase j }) =
            rest.countP (silentCheck now st) := by
          apply List.countP_congr
          intro k hk
          have hkj : k ≠ j := fun he => hjrest (he ▸ hk)
          show silentCheck now _ k = true ↔ silentCheck now st k = true
          rw [show silentCheck now
              { st with cameras := st.cameras.erase j,
                        frame_timestamps := st.frame_timestamps.erase j,
                        stats := st.stats.erase j } k = silentCheck now st k from by
            rw [silentCheck, silentCheck,
              show AssocMap.find? (AssocMap.erase st.cameras j) k =
                AssocMap.find? st.cameras k from AssocMap.find?_erase_ne _ _ _ hkj]]
        have ho : silentCheck now st j = true := by
          simp [silentCheck, hj, hc]
        rw [hcongr, List.countP_cons, ho]
        simp
        omega
      · rw [if_neg hc]
        rw [ih st r hrest, List.countP_cons]
        have hz : silentCheck now st j = false := by
          simp [silentCheck, hj, hc]
        rw [hz]
        simp

/-- Counting silent keys over a duplicate-free key list equals the
length of the entry-level filter. -/
theorem countP_keys_eq_filter_length (now : Rat) :
    ∀ (l : AssocMap FrameRecord) (T : Rat), l.keys.Nodup →
      l.keys.countP (fun k => match AssocMap.find? l k with
        | some cd => decide (T * 2 < now - cd.last_update)
        | none => false) =
      (l.filter (fun p => decide (T * 2 < now - p.2.last_update))).length := by
  intro l
  induction l with
  | nil =>
    intro T _
    rfl
  | cons p rest ih =>
    obtain ⟨k, v⟩ := p
    intro T hnd
    rw [AssocMap.keys_cons] at hnd ⊢
    have hk : k ∉ AssocMap.keys rest := (List.nodup_cons.mp hnd).1
    have hrest : (AssocMap.keys rest).Nodup := (List.nodup_cons.mp hnd).2
    rw [List.countP_cons]
    have htail : (AssocMap.keys rest).countP (fun k' =>
          match AssocMap.find? ((k, v) :: rest) k' with
          | some cd => decide (T * 2 < now - cd.last_update)
          | none => false) =
        (AssocMap.keys rest).countP (fun k' =>
          match AssocMap.find? rest k' with
          | some cd => decide (T * 2 < now - cd.last_update)
          | none => false) := by
      apply List.countP_congr
      intro k' hk'
      have hne : ¬ k = k' := fun he => hk (he ▸ hk')
      rw [show AssocMap.find? ((k, v) :: rest) k' = AssocMap.find? rest k' from by
        rw [AssocMap.find?_cons, if_neg hne]]
    have hhead : (match AssocMap.find? ((k, v) :: rest) k with
        | some cd => decide (T * 2 < now - cd.last_update)
        | none => false) = decide (T * 2 < now - v.last_update) := by
      rw [show AssocMap.find? ((k, v) :: rest) k = some v from by
        rw [AssocMap.find?_cons, if_pos rfl]]
    rw [htail, ih T hrest, hhead]
    by_cases hcv : T * 2 < now - v.last_update
    · rw [List.filter_cons_of_pos (by simpa using hcv)]
      simp [hcv]
    · rw [List.filter_cons_of_neg (by simpa using hcv)]
      simp [hcv]

end CameraManager

/-- C5: the sweep fully evicts every camera index whose record is
silent longer than `2 × inactivity_timeout` — frame record, FPS window
and statistics all removed together, never a partial subset — leaves
every other index's state untouched, and returns the number of cameras
evicted. -/
theorem sweep_contract (m : CameraManager) (now : Rat) (i : Nat)
    (hnodup : m.cameras.keys.Nodup) :
    (∀ cd, m.cameras.find? i = some cd →
      m.inactive_timeout * 2 < now - cd.last_update →
      ((m.clear_inactive_cameras now).1.cameras.find? i = none ∧
       (m.clear_inactive_cameras now).1.frame_timestamps.find? i = none ∧
       (m.clear_inactive_cameras now).1.stats.find? i = none)) ∧
    (∀ cd, m.cameras.find? i = some cd →
      ¬ m.inactive_timeout * 2 < now - cd.last_update →
      ((m.clear_inactive_cameras now).1.cameras.find? i = m.cameras.find? i ∧
       (m.clear_inactive_cameras now).1.frame_timestamps.find? i =
         m.frame_timestamps.find? i ∧
       (m.clear_inactive_cameras now).1.stats.find? i = m.stats.find? i)) ∧
    (m.cameras.find? i = none →
      ((m.clear_inactive_cameras now).1.cameras.find? i = m.cameras.find? i ∧
       (m.clear_inactive_cameras now).1.frame_timestamps.find? i =
         m.frame_timestamps.find? i ∧
       (m.clear_inactive_cameras now).1.stats.find? i = m.stats.find? i)) ∧
    (m.clear_inactive_cameras now).2 =
      (m.cameras.filter (fun p =>
        decide (m.inactive_timeout * 2 < now - p.2.last_update))).length := by
  refine ⟨?_, ?_, ?_, ?_⟩
  · intro cd hcd hsilent
    have hmem : i ∈ m.cameras.keys := by
      rw [← AssocMap.find?_isSome_iff_mem_keys, hcd]
      rfl
    exact CameraManager.clearLoop_evicts now m.cameras.keys i m 0 cd hmem hcd hsilent
  · intro cd hcd hkeep
    refine CameraManager.clearLoop_retains now m.cameras.keys i m 0 ?_
    intro cd' hcd'
    rw [hcd] at hcd'
    cases Option.some.injEq .. ▸ hcd' with
    | refl => exact hkeep
  · intro hnone
    refine CameraManager.clearLoop_retains now m.cameras.keys i m 0 ?_
    intro cd' hcd'
    rw [hnone] at hcd'
    exact Option.noConfusion hcd'
  · rw [CameraManager.clear_inactive_cameras,
      CameraManager.clearLoop_count now m.cameras.keys m 0 hnodup]
    rw [show m.cameras.keys.countP (CameraManager.silentCheck now m) =
        (m.cameras.filter (fun p =>
          decide (m.inactive_timeout * 2 < now - p.2.last_update))).length from
      CameraManager.countP_keys_eq_filter_length now m.cameras m.inactive_timeout hnodup]
    exact Nat.zero_add _

/-- C5 witness: sweeping at time 100 a manager that saw camera 0 at
time 0 (silent for 100 > 20) and camera 1 at time 90 (silent for only
10) evicts all three entries of index 0 and keeps all three of
index 1. -/
theorem sweep_contract_witness :
    (((((CameraManager.init 4).update_camera 0 "a" 0).update_camera 1 "b"
          90).clear_inactive_cameras 100).1.cameras.find? 0 = none ∧
     ((((CameraManager.init 4).update_camera 0 "a" 0).update_camera 1 "b"
          90).clear_inactive_cameras 100).1.frame_timestamps.find? 0 = none ∧
     ((((CameraManager.init 4).update_camera 0 "a" 0).update_camera 1 "b"
          90).clear_inactive_cameras 100).1.stats.find? 0 = none) ∧
    (((((CameraManager.init 4).update_camera 0 "a" 0).update_camera 1 "b"
          90).clear_inactive_cameras 100).1.cameras.find? 1 =
       (((CameraManager.init 4).update_camera 0 "a" 0).update_camera 1 "b"
          90).cameras.find? 1 ∧
     ((((CameraManager.init 4).update_camera 0 "a" 0).update_camera 1 "b"
          90).clear_inactive_cameras 100).1.frame_timestamps.find? 1 =
       (((CameraManager.init 4).update_camera 0 "a" 0).update_camera 1 "b"
          90).frame_timestamps.find? 1 ∧
     ((((CameraManager.init 4).update_camera 0 "a" 0).update_camera 1 "b"
          90).clear_inactive_cameras 100).1.stats.find? 1 =
       (((CameraManager.init 4).update_camera 0 "a" 0).update_camera 1 "b"
          90).stats.find? 1) :=
  ⟨(sweep_contract (((CameraManager.init 4).update_camera 0 "a" 0).update_camera 1
        "b" 90) 100 0 (by
      show List.Nodup [0, 1]
      decide)).1 ⟨"a", 0, 0⟩ rfl (by
      show (10 : Rat) * 2 < 100 - 0
      norm_num),
   (sweep_contract (((CameraManager.init 4).update_camera 0 "a" 0).update_camera 1
        "b" 90) 100 1 (by
      show List.Nodup [0, 1]
      decide)).2.1 ⟨"b", 90, 90⟩ rfl (by
      show ¬ (10 : Rat) * 2 < 100 - 90
      norm_num)⟩

/-! ## C10: the three per-camera maps stay key-aligned -/

/-- The operations that mutate a `CameraManager` in the running server:
a frame update (`handle_*_stream` → `update_camera`) or a periodic
sweep (`_periodic_cleanup` → `clear_inactive_cameras`). -/
inductive HubOp where
  | update (camera_id : Nat) (base64_data : String) (t : Rat) : HubOp
  | sweep (t : Rat) : HubOp

def applyOp (m : CameraManager) : HubOp → CameraManager
  | HubOp.update i d t => m.update_camera i d t
  | HubOp.sweep t => (m.clear_inactive_cameras t).1

def runOps (ops : List HubOp) : CameraManager :=
  ops.foldl applyOp (CameraManager.init MAX_CAMERAS)

/-- The three per-camera dicts have identical key sequences. -/
def keysAligned (m : CameraManager) : Prop :=
  m.cameras.keys = m.frame_timestamps.keys ∧ m.cameras.keys = m.stats.keys

theorem keysAligned_update (m : CameraManager) (i : Nat) (d : String) (t : Rat)
    (h : keysAligned m) : keysAligned (m.update_camera i d t) := by
  obtain ⟨h1, h2⟩ := h
  constructor
  · show AssocMap.keys (m.cameras.insert i _) =
      AssocMap.keys (m.frame_timestamps.insert i _)
    rw [AssocMap.keys_insert, AssocMap.keys_insert, h1]
  · show AssocMap.keys (m.cameras.insert i _) =
      AssocMap.keys (m.stats.insert i _)
    rw [AssocMap.keys_insert, AssocMap.keys_insert, h2]

theorem keysAligned_clearLoop (now : Rat) (ks : List Nat) :
    ∀ (st : CameraManager) (r : Nat), keysAligned st →
      keysAligned (CameraManager.clearLoop now ks (st, r)).1 := by
  induction ks with
  | nil => exact fun st r h => h
  | cons j rest ih =>
    intro st r h
    rw [CameraManager.clearLoop]
    cases hj : st.cameras.find? j with
    | none => exact ih st r h
    | some cdj =>
      simp only []
      by_cases hc : st.inactive_timeout * 2 < now - cdj.last_update
      · rw [if_pos hc]
        refine ih _ (r + 1) ⟨?_, ?_⟩
        · show AssocMap.keys (st.cameras.erase j) =
            AssocMap.keys (st.frame_timestamps.erase j)
          rw [AssocMap.keys_erase, AssocMap.keys_erase, h.1]
        · show AssocMap.keys (st.cameras.erase j) =
            AssocMap.keys (st.stats.erase j)
          rw [AssocMap.keys_erase, AssocMap.keys_erase, h.2]
      · rw [if_neg hc]
        exact ih st r h

theorem keysAligned_runOps (ops : List HubOp) : keysAligned (runOps ops) := by
  rw [runOps]
  have hgen : ∀ (l : List HubOp) (m : CameraManager), keysAligned m →
      keysAligned (l.foldl applyOp m) := by
    intro l
    induction l with
    | nil => exact fun m h => h
    | cons op rest ih =>
      intro m h
      rw [List.foldl_cons]
      refine ih (applyOp m op) ?_
      cases op with
      | update i d t => exact keysAligned_update m i d t h
      | sweep t => exact keysAligned_clearLoop t m.cameras.keys m 0 h
  exact hgen ops (CameraManager.init MAX_CAMERAS) ⟨rfl, rfl⟩

/-- C10: starting from a fresh manager, after any sequence of frame
updates and sweeps the latest-frame records, FPS windows and statistics
dicts always have exactly the same key set — per-camera state is
created and removed only as a unit. -/
theorem state_unit_lifecycle (ops : List HubOp) (i : Nat) :
    (i ∈ (runOps ops).cameras.keys ↔ i ∈ (runOps ops).frame_timestamps.keys) ∧
    (i ∈ (runOps ops).cameras.keys ↔ i ∈ (runOps ops).stats.keys) := by
  obtain ⟨h1, h2⟩ := keysAligned_runOps ops
  constructor
  · rw [h1]
  · rw [h2]

/-! ## C7: FPS over an evenly spaced update train -/

/-- `N` calls of `update_camera` for index `i`, the `k`-th at time
`t0 + k·step`. -/
def updateN (m : CameraManager) (i : Nat) (d : String) (t0 step : Rat) :
    Nat → CameraManager
  | 0 => m
  | n + 1 => (updateN m i d t0 step n).update_camera i d (t0 + (n : Rat) * step)

/-- The expected FPS window after `n` evenly spaced updates. -/
def window (t0 step : Rat) (n : Nat) : List Rat :=
  (List.range n).map (fun k : Nat => t0 + (k : Rat) * step)

theorem window_succ (t0 step : Rat) (n : Nat) :
    window t0 step (n + 1) = window t0 step n ++ [t0 + (n : Rat) * step] := by
  rw [window, List.range_succ, List.map_append]
  rfl

theorem window_length (t0 step : Rat) (n : Nat) :
    (window t0 step n).length = n := by
  simp [window]

theorem window_headD (t0 step : Rat) (n : Nat) (h : 1 ≤ n) :
    (window t0 step n).headD 0 = t0 := by
  obtain ⟨k, rfl⟩ : ∃ k, n = k + 1 := ⟨n - 1, by omega⟩
  rw [window, List.range_succ_eq_map]
  simp

theorem window_getLastD (t0 step : Rat) (n : Nat) :
    (window t0 step (n + 1)).getLastD 0 = t0 + (n : Rat) * step := by
  rw [window_succ]
  exact List.getLastD_concat _ _ _

theorem dequeAppend30_no_drop (d : List Rat) (t : Rat) (h : d.length ≤ 29) :
    dequeAppend30 d t = d ++ [t] := by
  rw [dequeAppend30]
  rw [if_neg]
  simp only [List.length_append, List.length_cons, List.length_nil]
  omega

namespace CameraManager

theorem update_camera_cameras_find (m : CameraManager) (i : Nat) (d : String)
    (now : Rat) : (m.update_camera i d now).cameras.find? i = some ⟨d, now, now⟩ :=
  AssocMap.find?_insert_self _ _ _

theorem update_camera_window_find (m : CameraManager) (i : Nat) (d : String)
    (now : Rat) :
    (m.update_camera i d now).frame_timestamps.find? i =
      some (dequeAppend30 ((m.frame_timestamps.find? i).getD []) now) :=
  AssocMap.find?_insert_self _ _ _

theorem update_camera_stats_find (m : CameraManager) (i : Nat) (d : String)
    (now : Rat) :
    (m.update_camera i d now).stats.find? i =
      some (
        let ft := dequeAppend30 ((m.frame_timestamps.find? i).getD []) now
        let stats0 := (m.stats.find? i).getD ⟨0, now, now, none⟩
        let stats1 := { stats0 with frames_received := stats0.frames_received + 1,
                                    last_update := now }
        if 2 ≤ ft.length then
          let time_span := ft.getLastD 0 - ft.headD 0
          if 0 < time_span then
            { stats1 with
              avg_fps := some (pyRound2 (((ft.length : Rat) - 1) / time_span)) }
          else stats1
        else stats1) :=
  AssocMap.find?_insert_self _ _ _

theorem get_camera_status_fps (m : CameraManager) (i : Nat) (now : Rat)
    (rec : FrameRecord) (s : CameraStats)
    (hc : m.cameras.find? i = some rec) (hs : m.stats.find? i = some s) :
    (m.get_camera_status i now).fps = s.avg_fps.getD 0 := by
  rw [get_camera_status, hc]
  simp only []
  rw [hs]
  rfl

end CameraManager

/-- The FPS window after `n ∈ [1, 30]` evenly spaced updates of a
previously unseen index is exactly the arithmetic train of arrival
instants. -/
theorem updateN_window_find (m : CameraManager) (i : Nat) (d : String)
    (t0 step : Rat) (hft : m.frame_timestamps.find? i = none) :
    ∀ n, 1 ≤ n → n ≤ 30 →
      (updateN m i d t0 step n).frame_timestamps.find? i =
        some (window t0 step n) := by
  intro n
  induction n with
  | zero =>
    intro h1 _
    exact absurd h1 (by norm_num)
  | succ n ih =>
    intro _ h30
    rw [updateN, CameraManager.update_camera_window_find]
    by_cases hn : n = 0
    · subst hn
      rw [show updateN m i d t0 step 0 = m from rfl, hft]
      rw [show (Option.getD (none : Option (List Rat)) []) = [] from rfl]
      rw [dequeAppend30_no_drop [] _ (by simp)]
      rw [show window t0 step 1 = [t0 + (0 : Nat) * step] from rfl]
      rfl
    · have h1' : 1 ≤ n := Nat.one_le_iff_ne_zero.mpr hn
      rw [ih h1' (by omega)]
      rw [show (Option.getD (some (window t0 step n)) []) = window t0 step n from rfl]
      rw [dequeAppend30_no_drop _ _ (by rw [window_length]; omega)]
      rw [window_succ]

/-- When the appended window has ≥ 2 samples spanning positive time,
the update stores `avg_fps = round2((samples − 1) / span)`. -/
theorem update_camera_avg_fps_set (m : CameraManager) (i : Nat) (d : String)
    (now : Rat) (w : List Rat)
    (hw : (m.frame_timestamps.find? i).getD [] = w)
    (hlen : 2 ≤ (dequeAppend30 w now).length)
    (hspan : 0 < (dequeAppend30 w now).getLastD 0 - (dequeAppend30 w now).headD 0) :
    ((m.update_camera i d now).stats.find? i).map (fun s => s.avg_fps) =
      some (some (pyRound2 ((((dequeAppend30 w now).length : Rat) - 1) /
        ((dequeAppend30 w now).getLastD 0 - (dequeAppend30 w now).headD 0)))) := by
  have hfind := CameraManager.update_camera_stats_find m i d now
  rw [hw] at hfind
  rw [hfind, Option.map_some']
  simp only []
  rw [if_pos hlen, if_pos hspan]

/-- First-ever update of an index: the window holds one sample, so no
`avg_fps` key is written. -/
theorem update_camera_avg_fps_absent (m : CameraManager) (j : Nat) (d : String)
    (t : Rat)
    (hw : m.frame_timestamps.find? j = none) (hs : m.stats.find? j = none) :
    ((m.update_camera j d t).stats.find? j).map (fun s => s.avg_fps) =
      some none := by
  have hfind := CameraManager.update_camera_stats_find m j d t
  rw [hw, hs] at hfind
  rw [show (Option.getD (none : Option (List Rat)) []) = [] from rfl] at hfind
  rw [dequeAppend30_no_drop [] t (by simp), List.nil_append] at hfind
  rw [hfind, Option.map_some']
  simp only []
  rw [if_neg (by simp)]
  rfl

/-- C7: after `N ∈ [2, 30]` updates of a previously unseen index spaced
exactly `step > 0` seconds apart, the reported `avg_fps` is
`round2(1/step)` — since it is recomputed as `(samples − 1)/(newest −
oldest)` over the capacity-30 window — and after a single update (fewer
than 2 window samples) the reported fps is 0. -/
theorem avg_fps_even_spacing (m : CameraManager) (i : Nat) (d : String)
    (t0 step now : Rat) (N : Nat)
    (h2 : 2 ≤ N) (h30 : N ≤ 30) (hstep : 0 < step)
    (hft : m.frame_timestamps.find? i = none) :
    ((updateN m i d t0 step N).get_camera_status i now).fps = pyRound2 (1 / step) ∧
    (∀ (mf : CameraManager) (j : Nat) (df : String) (tf nowf : Rat),
      mf.frame_timestamps.find? j = none → mf.stats.find? j = none →
      ((mf.update_camera j df tf).get_camera_status j nowf).fps = 0) := by
  constructor
  · obtain ⟨n, rfl⟩ : ∃ n, N = n + 1 := ⟨N - 1, by omega⟩
    have h1n : 1 ≤ n := by omega
    have hwn : (updateN m i d t0 step n).frame_timestamps.find? i =
        some (window t0 step n) :=
      updateN_window_find m i d t0 step hft n h1n (by omega)
    have hdeq : dequeAppend30 (window t0 step n) (t0 + (n : Rat) * step) =
        window t0 step (n + 1) := by
      rw [dequeAppend30_no_drop _ _ (by rw [window_length]; omega), window_succ]
    have hstats := update_camera_avg_fps_set (updateN m i d t0 step n) i d
      (t0 + (n : Rat) * step) (window t0 step n) (by rw [hwn]; rfl)
      (by rw [hdeq, window_length]; omega)
      (by
        rw [hdeq, window_getLastD, window_headD t0 step (n + 1) (by omega)]
        have hn0 : (0 : Rat) < (n : Rat) := by
          exact_mod_cast Nat.pos_of_ne_zero (by omega)
        nlinarith)
    rw [hdeq, window_length, window_getLastD,
      window_headD t0 step (n + 1) (by omega)] at hstats
    obtain ⟨s, hsfind, hsavg⟩ := Option.map_eq_some'.mp hstats
    have hcfind := CameraManager.update_camera_cameras_find
      (updateN m i d t0 step n) i d (t0 + (n : Rat) * step)
    rw [show updateN m i d t0 step (n + 1) =
        (updateN m i d t0 step n).update_camera i d (t0 + (n : Rat) * step)
      from rfl]
    rw [CameraManager.get_camera_status_fps _ i now _ s hcfind hsfind, hsavg,
      Option.getD_some]
    have hnum : (((n : Nat) + 1 : Nat) : Rat) - 1 = (n : Rat) := by
      push_cast
      ring
    have hden : t0 + (n : Rat) * step - t0 = (n : Rat) * step := by ring
    rw [hnum, hden]
    have hn0 : (n : Rat) ≠ 0 := by
      exact_mod_cast Nat.pos_iff_ne_zero.mp (by omega)
    have hs0 : step ≠ 0 := ne_of_gt hstep
    have hns0 : (n : Rat) * step ≠ 0 := mul_ne_zero hn0 hs0
    rw [show (n : Rat) / ((n : Rat) * step) = 1 / step from by
      rw [div_eq_div_iff hns0 hs0]
      ring]
  · intro mf j df tf nowf hwf hsf
    have hstats := update_camera_avg_fps_absent mf j df tf hwf hsf
    obtain ⟨s, hsfind, hsavg⟩ := Option.map_eq_some'.mp hstats
    have hcfind := CameraManager.update_camera_cameras_find mf j df tf
    rw [CameraManager.get_camera_status_fps _ j nowf _ s hcfind hsfind, hsavg]
    rfl

/-- C7 witness: two updates of a fresh camera 0 exactly 1 second apart
report `avg_fps = round2(1/1)`, and a single update reports fps 0. -/
theorem avg_fps_even_spacing_witness :
    ((updateN (CameraManager.init 4) 0 "x" 0 1 2).get_camera_status 0 5).fps =
      pyRound2 (1 / 1) ∧
    (((CameraManager.init 4).update_camera 0 "x" 0).get_camera_status 0 5).fps
      = 0 := by
  have h := avg_fps_even_spacing (CameraManager.init 4) 0 "x" 0 1 5 2
    (by norm_num) (by norm_num) (by norm_num) rfl
  exact ⟨h.1, h.2 (CameraManager.init 4) 0 "x" 0 5 rfl rfl⟩

end TrafficCam
